import Mathlib

/-
Verification of the build-invalidation and build-graph core of the
foursquare/twitter-commons pants subtree.

Each definition below is a shallow embedding of a function of the source
tree (src/python/twitter/pants/...).  File-system state is modelled
explicitly: the invalidator's hash files as an association list from file
path to contents, the artifact cache's tree as lists of existing file and
directory paths.  Machine-level hashing (sha1) is opaque to the properties
proved here and is modelled by a concrete stand-in; every property proved
about it depends only on which inputs it is applied to, never on the digest
text itself.

Functions whose defining code is not under src/ (their callers are) carry a
doc comment starting `Modelled from the spec:` and follow the spec's words.
-/

/-! ### Python string helpers -/

/-- Whitespace characters removed by Python's `str.strip()`. -/
def isPySpace (c : Char) : Bool :=
  c = ' ' || c = '\t' || c = '\n' || c = '\r' || c = Char.ofNat 11 || c = Char.ofNat 12

/-- Python `str.strip()` on a character list: drop whitespace from both ends. -/
def pyStripList (cs : List Char) : List Char :=
  ((cs.dropWhile isPySpace).reverse.dropWhile isPySpace).reverse

/-- Python `str.strip()`. -/
def pyStrip (s : String) : String :=
  String.mk (pyStripList s.data)

/-! ### CacheKey (base/build_invalidator.py)

`CacheKey = namedtuple('CacheKey', ['id', 'hash', 'payloads'])`.
Payloads are opaque sortable values; we model them as strings. -/

structure CacheKey where
  id : String
  hash : String
  payloads : List String
deriving DecidableEq, Inhabited

/-- `GLOBAL_CACHE_KEY_GEN_VERSION = '6'` (base/build_invalidator.py). -/
def GLOBAL_CACHE_KEY_GEN_VERSION : String := "6"

namespace CacheKeyGenerator

/-- Modelled from the spec: `hash_all` (base/hash_utils.py, which is not under
src/) absorbs each string of the list into a fresh sha1 and returns the hex
digest.  The digest function itself is opaque; it is modelled by a concrete
injection of the input list into a string, which the properties proved here
treat as opaque. -/
def hash_all (strs : List String) : String :=
  String.intercalate "\x00" strs

/-- Modelled from the spec: `Target.maybe_readable_combine_ids`
(base/target.py, which is not under src/) produces "a readable join of the
input ids"; per the spec, combining cache keys is commutative, so the join
orders its inputs before joining, and a singleton input is returned as is. -/
def maybe_readable_combine_ids (ids : List String) : String :=
  if ids.length = 1 then ids.headI
  else String.intercalate "." ids.mergeSort

/-- `CacheKeyGenerator.combine_cache_keys` (base/build_invalidator.py lines
51-69): a singleton list returns its sole key unchanged; otherwise the id is
the readable combination of the ids, the hash is `hash_all` of the sorted
hashes, and the payloads are the sorted concatenation of the payload lists. -/
def combine_cache_keys (cache_keys : List CacheKey) : CacheKey :=
  if cache_keys.length = 1 then cache_keys.headI
  else
    { id := maybe_readable_combine_ids (cache_keys.map CacheKey.id),
      hash := hash_all (cache_keys.map CacheKey.hash).mergeSort,
      payloads := (cache_keys.map CacheKey.payloads).flatten.mergeSort }

end CacheKeyGenerator

/-! ### BuildInvalidator (base/build_invalidator.py)

The on-disk store is an association list from file path to file contents. -/

/-- The invalidator's slice of the file system: path ↦ contents. -/
abbrev InvFS := List (String × String)

namespace BuildInvalidator

/-- Modelled from the spec: `safe_filename` (fs/fs.py, which is not under
src/) appends the extension and escapes unsafe characters injectively; the
spec requires only that distinct ids not collide, so the escape is modelled
as the identity. -/
def safe_filename (id : String) (extension : String) : String :=
  id ++ extension

/-- `self._root = os.path.join(root, GLOBAL_CACHE_KEY_GEN_VERSION)`. -/
def invRoot (root : String) : String :=
  root ++ "/" ++ GLOBAL_CACHE_KEY_GEN_VERSION

/-- `BuildInvalidator._sha_file_by_id`. -/
def sha_file_by_id (root : String) (id : String) : String :=
  invRoot root ++ "/" ++ safe_filename id ".hash"

/-- Overwriting file write, as done by `open(..., 'w')` followed by `write`. -/
def fsWrite (path contents : String) (fs : InvFS) : InvFS :=
  (path, contents) :: fs.filter (fun kv => kv.1 ≠ path)

/-- File read: `none` models the ENOENT branch of `_read_sha_by_id`. -/
def fsRead (path : String) (fs : InvFS) : Option String :=
  fs.lookup path

/-- `BuildInvalidator._read_sha_by_id`: read the id's hash file and strip it;
a missing file yields `none`. -/
def read_sha_by_id (root : String) (id : String) (fs : InvFS) : Option String :=
  (fsRead (sha_file_by_id root id) fs).map pyStrip

/-- `BuildInvalidator.needs_update`: `self._read_sha(cache_key) != cache_key.hash`. -/
def needs_update (root : String) (fs : InvFS) (key : CacheKey) : Bool :=
  read_sha_by_id root key.id fs != some key.hash

/-- `BuildInvalidator.update` / `_write_sha`: write `key.hash` to the id's file. -/
def update (root : String) (fs : InvFS) (key : CacheKey) : InvFS :=
  fsWrite (sha_file_by_id root key.id) key.hash fs

end BuildInvalidator

/-! ### LocalArtifactCache (cache/local_artifact_cache.py)

Paths are lists of components; `os.path.join` is list append.  The cache's
slice of the file system is the list of existing file paths and the list of
existing directory paths. -/

/-- A file-system path, as a list of components. -/
abbrev FsPath := List String

/-- The artifact cache's slice of the file system. -/
structure FileSys where
  files : List FsPath
  dirs : List FsPath
deriving DecidableEq, Inhabited

namespace LocalArtifactCache

/-- String concatenation onto the final component of a path, as Python's
`str + suffix` behaves on a joined path. -/
def appendToLast : FsPath → String → FsPath
  | [], suffix => [suffix]
  | [x], suffix => [x ++ suffix]
  | x :: xs, suffix => x :: appendToLast xs suffix

/-- `LocalArtifactCache._cache_dir_for_key`:
`os.path.join(self._cache_root, cache_key.id, cache_key.hash)`. -/
def cache_dir_for_key (cache_root : FsPath) (key : CacheKey) : FsPath :=
  cache_root ++ [key.id, key.hash]

/-- `LocalArtifactCache._cache_file_for_key`.  The source line is
`return os.path.join(self._cache_root, cache_key.id, cache_key.hash) + \
 '.tar.gz' if self._compress else '.tar'`
and Python parses `a + b if c else d` as `(a + b) if c else d`, so with
compression disabled the function returns the bare relative path `.tar`.
The embedding mirrors that precedence. -/
def cache_file_for_key (cache_root : FsPath) (compress : Bool) (key : CacheKey) : FsPath :=
  if compress then appendToLast (cache_root ++ [key.id, key.hash]) ".tar.gz"
  else [".tar"]

/-- All nonempty prefixes of a path: the directories `os.makedirs` creates. -/
def pathPrefixes (p : FsPath) : List FsPath :=
  (List.range p.length).map (fun n => p.take (n + 1))

/-- `safe_mkdir_for(f)`: create the parent directory of `f` and its ancestors. -/
def safe_mkdir_for (f : FsPath) (fs : FileSys) : FileSys :=
  { fs with dirs := pathPrefixes f.dropLast ++ fs.dirs }

/-- `LocalArtifactCache.try_insert`: create the tarball's parent directory,
archive the paths into a unique temporary file and atomically rename it over
the final name (first unlinking an existing one).  The temporary file exists
only transiently; the post-state records the renamed final tarball.  The
read-only no-op is modelled from the spec (the base class is not under src/). -/
def try_insert (cache_root : FsPath) (compress read_only : Bool)
    (fs : FileSys) (key : CacheKey) : FileSys :=
  if read_only then fs
  else
    let tarfile := cache_file_for_key cache_root compress key
    let fs1 := safe_mkdir_for tarfile fs
    { fs1 with files := tarfile :: fs1.files.filter (fun f => f ≠ tarfile) }

/-- `LocalArtifactCache.has`: `os.path.isdir(self._cache_dir_for_key(cache_key))`. -/
def has (cache_root : FsPath) (fs : FileSys) (key : CacheKey) : Bool :=
  fs.dirs.contains (cache_dir_for_key cache_root key)

/-- `LocalArtifactCache.use_cached_files`: if the tarball exists, extract it
and return the artifact handle (modelled by the tarball path); else `none`. -/
def use_cached_files (cache_root : FsPath) (compress : Bool)
    (fs : FileSys) (key : CacheKey) : Option FsPath :=
  let tarfile := cache_file_for_key cache_root compress key
  if fs.files.contains tarfile then some tarfile else none

end LocalArtifactCache

/-! ### TargetProxy and TargetCallProxy (base/build_file_parser.py)

BUILD-file values are opaque Python objects; the embedding needs strings and
lists (the default `dependencies` is the empty list).  A Python dict of
keyword arguments is an association list with unique keys; `pop` and
membership are modelled by lookup and filtering. -/

/-- A BUILD-file value: a string or a list of strings (dependency lists are
lists of spec strings). -/
inductive PyVal where
  | str : String → PyVal
  | pylist : List String → PyVal
deriving DecidableEq, Inhabited

/-- Keyword arguments of a target call. -/
abbrev Kwargs := List (String × PyVal)

/-- Python `key in dict`. -/
def kwContains (kw : Kwargs) (k : String) : Bool :=
  (kw.lookup k).isSome

/-- Python `dict.pop(key, default)`: the popped value and the remaining dict. -/
def kwPop (kw : Kwargs) (k : String) (dflt : PyVal) : PyVal × Kwargs :=
  ((kw.lookup k).getD dflt, kw.filter (fun e => e.1 ≠ k))

/-- A BUILD file handle: repository root, directory, and base name. -/
structure BuildFileId where
  root_dir : String
  spec_path : String
  base_name : String
deriving DecidableEq, Inhabited

/-- Modelled from the spec: `BuildFileAddress` (base/address.py, not under
src/) is the pair of the owning BUILD file's directory and the target name;
addresses compare by that pair (their string form `spec_path:name`). -/
structure Address where
  spec_path : String
  target_name : String
deriving DecidableEq, Inhabited

/-- The name of a target as a string; BUILD files declare `name` as a string. -/
def PyVal.asName : PyVal → String
  | .str s => s
  | .pylist _ => ""

/-- The declaration errors raised by `TargetProxy.__init__`'s three asserts. -/
inductive DeclErr where
  | missingName
  | positionalArgs
  | buildFileKwarg
deriving DecidableEq

/-- The record stored by a successful `TargetProxy.__init__`: the kwargs with
`dependencies` popped out, the popped dependency list (default empty), the
declared name, and the `BuildFileAddress` of the declaration. -/
structure TargetProxy where
  target_type : String
  build_file : BuildFileId
  kwargs : Kwargs
  dependencies : PyVal
  name : PyVal
  address : Address
deriving DecidableEq

/-- `TargetProxy.__init__` (base/build_file_parser.py lines 20-55): assert
`name` present, assert no positional arguments, assert `build_file` not
passed; then store the kwargs, pop `dependencies` (default `[]`) out of
them, and record the name and address. -/
def TargetProxy.init (target_type : String) (build_file : BuildFileId)
    (args : List PyVal) (kwargs : Kwargs) : Except DeclErr TargetProxy :=
  if kwContains kwargs "name" = false then .error .missingName
  else if args ≠ [] then .error .positionalArgs
  else if kwContains kwargs "build_file" then .error .buildFileKwarg
  else
    let popped := kwPop kwargs "dependencies" (.pylist [])
    let nm := (kwargs.lookup "name").getD (.str "")
    .ok { target_type := target_type, build_file := build_file,
          kwargs := popped.2, dependencies := popped.1, name := nm,
          address := ⟨build_file.spec_path, nm.asName⟩ }

/-- The keyword arguments `TargetProxy.to_target` passes to the target type:
`self.target_type(build_graph=build_graph, address=self.address, **self.kwargs)`. -/
structure TargetCtorCall where
  build_graph : Nat
  address : Address
  kwargs : Kwargs
deriving DecidableEq

/-- `TargetProxy.to_target` as the constructor invocation it performs (the
graph handle is an opaque token). -/
def TargetProxy.to_target (p : TargetProxy) (build_graph : Nat) : TargetCtorCall :=
  ⟨build_graph, p.address, p.kwargs⟩

/-- `TargetCallProxy.__call__` (base/build_file_parser.py lines 105-107):
construct a `TargetProxy` and add it to the registered set. -/
def TargetCallProxy.call (target_type : String) (build_file : BuildFileId)
    (registered : List TargetProxy) (args : List PyVal) (kwargs : Kwargs) :
    Except DeclErr (List TargetProxy) :=
  (TargetProxy.init target_type build_file args kwargs).map (fun p => p :: registered)

/-! ### BuildFileParser family evaluation (base/build_file_parser.py)

Executing a BUILD-file script harvests a set of declared target proxies; the
script itself is outside the embedding, so a BUILD file is modelled together
with the list of target names its evaluation registers.  The recording loop
mutates the parser in place and an assertion failure aborts it mid-way, so
the embedding returns the state reached so far together with an optional
error.  (`_target_proxies_by_build_file` is omitted: it records the same
additions as `addresses_by_build_file` and no claim mentions it.) -/

/-- A BUILD file and the target names its script declares when executed. -/
structure BuildFileModel where
  dir : String
  base_name : String
  decls : List String
deriving DecidableEq, Inhabited

/-- The error raised by the address-uniqueness asserts (spec: DuplicateAddress). -/
inductive ParseErr where
  | duplicateAddress
deriving DecidableEq

/-- The mutable state of a `BuildFileParser` instance. -/
structure ParserState where
  target_proxy_by_address : List (Address × String)
  addresses_by_build_file : List (BuildFileModel × List Address)
  added_build_files : List BuildFileModel
  added_build_file_families : List BuildFileModel
deriving DecidableEq, Inhabited

namespace BuildFileParser

/-- The recording loop of `parse_build_file` (lines 268-288): for each
harvested proxy, assert its address is globally new and new for this file,
then record it; after the loop mark the file parsed.  A failed assert
returns the partially updated state. -/
def recordProxies (bf : BuildFileModel) (st : ParserState) :
    List String → ParserState × Option ParseErr
  | [] => ({ st with added_build_files := bf :: st.added_build_files }, none)
  | n :: rest =>
      let addr : Address := ⟨bf.dir, n⟩
      if (st.target_proxy_by_address.lookup addr).isSome then
        (st, some .duplicateAddress)
      else if ((st.addresses_by_build_file.lookup bf).getD []).contains addr then
        (st, some .duplicateAddress)
      else
        recordProxies bf
          { st with
            target_proxy_by_address := (addr, n) :: st.target_proxy_by_address,
            addresses_by_build_file :=
              (bf, addr :: (st.addresses_by_build_file.lookup bf).getD []) ::
                st.addresses_by_build_file.filter (fun e => e.1 ≠ bf) } rest

/-- `BuildFileParser.parse_build_file`: short-circuit when already parsed,
else execute (harvest) and record. -/
def parse_build_file (bf : BuildFileModel) (st : ParserState) :
    ParserState × Option ParseErr :=
  if st.added_build_files.contains bf then (st, none)
  else recordProxies bf st bf.decls

/-- The loop of `parse_build_file_family` over the family members; an error
aborts the loop with the state reached so far. -/
def parseFamilyList (st : ParserState) :
    List BuildFileModel → ParserState × Option ParseErr
  | [] => (st, none)
  | bf :: rest =>
      match parse_build_file bf st with
      | (st1, some e) => (st1, some e)
      | (st1, none) => parseFamilyList st1 rest

/-- Modelled from the spec: `BuildFile.family()` (base/build_file.py, not
under src/) is the set of BUILD files in the same directory. -/
def family (files : List BuildFileModel) (bf : BuildFileModel) :
    List BuildFileModel :=
  files.filter (fun f => f.dir = bf.dir)

/-- `BuildFileParser.parse_build_file_family` (lines 216-220). -/
def parse_build_file_family (files : List BuildFileModel) (bf : BuildFileModel)
    (st : ParserState) : ParserState × Option ParseErr :=
  if st.added_build_file_families.contains bf then (st, none)
  else
    match parseFamilyList st (family files bf) with
    | (st1, some e) => (st1, some e)
    | (st1, none) =>
        ({ st1 with added_build_file_families := bf :: st1.added_build_file_families },
          none)

end BuildFileParser

/-! ### Build graph closure traversals (base/build_file_parser.py, lines 163-214)

The traversals consult the parser's `_target_proxy_by_address`; since
`parse_build_file_family` is idempotent and only grows that map, the
embedding takes the fully evaluated map as a fixed environment.  A proxy is
carried as its `dependency_addresses` (the cached parse of its dependency
specs) together with the `traversable_specs` of the target it materializes
into; specs and addresses convert back and forth by `parse_spec`
(base/address.py, not under src/), which on a canonical `path:name` spec is
the inverse of the address's string form, so the recursion on
`dep_address.spec` is modelled directly on addresses.  Materializing a proxy
(`to_target`) is the identity on this data.  Recursion is fuel-indexed:
`none` marks fuel exhaustion, and theorem C5 shows that the fuel bound
computed from the proxy map always suffices, cycles included. -/

/-- A target proxy as the closure traversals consume it. -/
structure ProxyNode where
  dependency_addresses : List Address
  traversable_specs : List Address
deriving DecidableEq, Inhabited

/-- The `_target_proxy_by_address` environment. -/
abbrev ProxyMap := List (Address × ProxyNode)

/-- The finite set of addresses owning a proxy. -/
def proxyUniverse (pm : ProxyMap) : Finset Address :=
  (pm.map Prod.fst).toFinset

/-- The failure of `assert address in self._target_proxy_by_address`. -/
inductive GraphErr where
  | missingAddress
deriving DecidableEq

/-- Decidable equality of traversal results. -/
instance {ε α : Type} [DecidableEq ε] [DecidableEq α] : DecidableEq (Except ε α) :=
  fun x y =>
    match x, y with
    | .error a, .error b =>
        if h : a = b then isTrue (by rw [h])
        else isFalse (by intro hx; cases hx; exact h rfl)
    | .ok a, .ok b =>
        if h : a = b then isTrue (by rw [h])
        else isFalse (by intro hx; cases hx; exact h rfl)
    | .error _, .ok _ => isFalse (by intro hx; cases hx)
    | .ok _, .error _ => isFalse (by intro hx; cases hx)

/-- Modelled from the spec: `BuildGraph` (base/build_graph.py, not under
src/) is a mapping from address to target plus a forward-edge map; the
traversals only add nodes and record dependency edges. -/
structure BuildGraph where
  nodes : List Address
  edges : List (Address × List Address)
deriving DecidableEq, Inhabited

/-- `build_graph.contains_address(address)`. -/
def BuildGraph.contains_address (g : BuildGraph) (a : Address) : Bool :=
  g.nodes.contains a

/-- `build_graph.inject_target(target, dependencies=...)`: record the node
and its dependency edges. -/
def BuildGraph.inject_target (g : BuildGraph) (a : Address)
    (deps : List Address) : BuildGraph :=
  { nodes := a :: g.nodes, edges := (a, deps) :: g.edges }

/-- The recursion loops of both traversals (`for dep_address in ...:` and
`for traversable_spec in ...:`): fold a closure step over a list of
addresses, threading the traversal state and aborting on error. -/
def closureFold {σ : Type} (step : Address → σ → Option (Except GraphErr σ)) :
    List Address → σ → Option (Except GraphErr σ)
  | [], s => some (.ok s)
  | d :: ds, s =>
      match step d s with
      | none => none
      | some (.error e) => some (.error e)
      | some (.ok s1) => closureFold step ds s1

/-- `populate_target_proxy_transitive_closure_for_address` (lines 186-214):
return if the address is already in the visited set; assert it has a proxy;
mark it visited; recurse over the proxy's dependency addresses. -/
def populateAux (pm : ProxyMap) : Nat → Address → Finset Address →
    Option (Except GraphErr (Finset Address))
  | 0 => fun _ _ => none
  | fuel + 1 => fun address closed =>
      if address ∈ closed then some (.ok closed)
      else
        match pm.lookup address with
        | none => some (.error .missingAddress)
        | some proxy =>
            closureFold (populateAux pm fuel) proxy.dependency_addresses
              (insert address closed)

/-- The populate traversal at its public entry: fresh visited set, and fuel
that theorem C5 proves sufficient. -/
def populate_target_proxy_transitive_closure_for_address (pm : ProxyMap)
    (address : Address) : Option (Except GraphErr (Finset Address)) :=
  populateAux pm ((proxyUniverse pm).card + 1) address ∅

/-- `inject_spec_closure_into_build_graph` (lines 163-184): populate the
proxy closure, look the proxy up, and unless the address is already in the
graph or in the visited set: mark it visited, recurse over the dependency
addresses, materialize and inject the target with its dependency edges, then
recurse over the target's traversable specs. -/
def injectAux (pm : ProxyMap) : Nat → Address → BuildGraph → Finset Address →
    Option (Except GraphErr (BuildGraph × Finset Address))
  | 0 => fun _ _ _ => none
  | fuel + 1 => fun address g closed =>
      match populate_target_proxy_transitive_closure_for_address pm address with
      | none => none
      | some (.error e) => some (.error e)
      | some (.ok _) =>
          match pm.lookup address with
          | none => some (.error .missingAddress)
          | some proxy =>
              if g.contains_address address = true ∨ address ∈ closed then
                some (.ok (g, closed))
              else
                match closureFold (fun d s => injectAux pm fuel d s.1 s.2)
                    proxy.dependency_addresses (g, insert address closed) with
                | none => none
                | some (.error e) => some (.error e)
                | some (.ok (g1, closed1)) =>
                    closureFold (fun d s => injectAux pm fuel d s.1 s.2)
                      proxy.traversable_specs
                      (g1.inject_target address proxy.dependency_addresses, closed1)

/-- The injection traversal at its public entry: fresh visited set
(`addresses_already_closed=None`), and fuel that theorem C5 proves
sufficient. -/
def inject_spec_closure_into_build_graph (pm : ProxyMap) (address : Address)
    (build_graph : BuildGraph) :
    Option (Except GraphErr (BuildGraph × Finset Address)) :=
  injectAux pm ((proxyUniverse pm).card + 1) address build_graph ∅

/-- One declared-dependency step: `b` is a dependency address of `a`'s proxy. -/
def DepStep (pm : ProxyMap) (a b : Address) : Prop :=
  ∃ node, pm.lookup a = some node ∧ b ∈ node.dependency_addresses

/-- Transitive reachability along declared dependency specs. -/
def DepReach (pm : ProxyMap) : Address → Address → Prop :=
  Relation.ReflTransGen (DepStep pm)

/-- Postcondition relating the graph and visited set before and after an
injection step: the graph and the visited set only grow; every node added to
the graph was visited; every newly visited address has been injected and has
each declared dependency injected-or-visited; every recorded edge is either
pre-existing or points only at injected-or-visited addresses. -/
def InjectPost (pm : ProxyMap) (g : BuildGraph) (c : Finset Address)
    (g' : BuildGraph) (c' : Finset Address) : Prop :=
  (∀ x, x ∈ g.nodes → x ∈ g'.nodes) ∧
  (∀ e, e ∈ g.edges → e ∈ g'.edges) ∧
  c ⊆ c' ∧
  (∀ x, x ∈ g'.nodes → x ∈ g.nodes ∨ x ∈ c') ∧
  (∀ x, x ∈ c' → x ∈ c ∨ (x ∈ g'.nodes ∧ ∀ node, pm.lookup x = some node →
    ∀ d ∈ node.dependency_addresses, d ∈ g'.nodes ∨ d ∈ c')) ∧
  (∀ a ds, (a, ds) ∈ g'.edges → (a, ds) ∈ g.edges ∨
    ∀ d ∈ ds, d ∈ g'.nodes ∨ d ∈ c')

/-- The proxy constructed by the C10 witness declaration. -/
def c10WitnessProxy : TargetProxy :=
  { target_type := "java_library", build_file := ⟨"r", "d", "BUILD"⟩,
    kwargs := [("name", PyVal.str "x")],
    dependencies := PyVal.pylist [":a"], name := PyVal.str "x",
    address := ⟨"d", "x"⟩ }

/-! ### Theorems -/

/-- helper: writing a path then looking it up returns the written contents. -/
theorem fsRead_fsWrite_same (path contents : String) (fs : InvFS) :
    BuildInvalidator.fsRead path (BuildInvalidator.fsWrite path contents fs) = some contents := by
  simp [BuildInvalidator.fsRead, BuildInvalidator.fsWrite, List.lookup]

/-- C1. For every cache key `k`, `update(k)` followed by `needs_update(k)`
returns false, and a subsequent `update(k')` with `k'.id = k.id` and
`k'.hash ≠ k.hash` makes `needs_update(k)` return true.  The hypotheses
that the hashes are fixed by `strip` hold for every hash the program
constructs (sha1 hexdigests contain no whitespace). -/
theorem c1_update_needs_update (root : String) (fs : InvFS) (k k' : CacheKey)
    (hk : pyStrip k.hash = k.hash) (hk' : pyStrip k'.hash = k'.hash)
    (hid : k'.id = k.id) (hne : k'.hash ≠ k.hash) :
    BuildInvalidator.needs_update root (BuildInvalidator.update root fs k) k = false ∧
    BuildInvalidator.needs_update root
      (BuildInvalidator.update root (BuildInvalidator.update root fs k) k') k = true := by
  constructor
  · simp [BuildInvalidator.needs_update, BuildInvalidator.update,
      BuildInvalidator.read_sha_by_id, fsRead_fsWrite_same, hk]
  · have hpath : BuildInvalidator.sha_file_by_id root k'.id =
        BuildInvalidator.sha_file_by_id root k.id := by rw [hid]
    simp [BuildInvalidator.needs_update, BuildInvalidator.update, hpath,
      BuildInvalidator.read_sha_by_id, fsRead_fsWrite_same, hk']
    exact hne

/-- Witness for C1 at a concrete key pair sharing an id. -/
theorem c1_update_needs_update_witness :
    BuildInvalidator.needs_update "r"
      (BuildInvalidator.update "r" [] ⟨"i", "aa", []⟩) ⟨"i", "aa", []⟩ = false ∧
    BuildInvalidator.needs_update "r"
      (BuildInvalidator.update "r" (BuildInvalidator.update "r" [] ⟨"i", "aa", []⟩)
        ⟨"i", "bb", []⟩) ⟨"i", "aa", []⟩ = true :=
  c1_update_needs_update "r" [] ⟨"i", "aa", []⟩ ⟨"i", "bb", []⟩
    (by decide) (by decide) rfl (by decide)

/-- helper: permutations have equal merge sorts (strings, default order). -/
theorem mergeSort_eq_of_perm {l₁ l₂ : List String} (h : l₁.Perm l₂) :
    l₁.mergeSort = l₂.mergeSort :=
  List.eq_of_perm_of_sorted
    ((List.mergeSort_perm l₁ _).trans (h.trans (List.mergeSort_perm l₂ _).symm))
    (List.sorted_mergeSort' l₁) (List.sorted_mergeSort' l₂)

/-- helper: a permutation of outer lists gives a permutation of flattenings. -/
theorem flatten_perm_of_perm {l₁ l₂ : List (List String)} (h : l₁.Perm l₂) :
    l₁.flatten.Perm l₂.flatten := by
  induction h with
  | nil => exact .rfl
  | cons x _ ih => simpa using ih.append_left x
  | swap x y l =>
      simp only [List.flatten_cons, ← List.append_assoc]
      exact (List.perm_append_comm).append_right _
  | trans _ _ ih₁ ih₂ => exact ih₁.trans ih₂

/-- C8. `combine_cache_keys` is invariant under permutation of its input. -/
theorem c8_combine_cache_keys_perm (K P : List CacheKey) (h : K.Perm P) :
    CacheKeyGenerator.combine_cache_keys K = CacheKeyGenerator.combine_cache_keys P := by
  by_cases h1 : K.length = 1
  · obtain ⟨k, rfl⟩ := List.length_eq_one.mp h1
    obtain rfl : P = [k] := List.perm_singleton.mp h.symm
    rfl
  · have h2 : ¬ P.length = 1 := by rw [← h.length_eq]; exact h1
    have hlen : ¬ (K.map CacheKey.id).length = 1 := by simpa using h1
    have hlen' : ¬ (P.map CacheKey.id).length = 1 := by simpa using h2
    simp only [CacheKeyGenerator.combine_cache_keys, if_neg h1, if_neg h2,
      CacheKeyGenerator.maybe_readable_combine_ids, if_neg hlen, if_neg hlen',
      CacheKey.mk.injEq]
    refine ⟨?_, ?_, ?_⟩
    · rw [mergeSort_eq_of_perm (h.map CacheKey.id)]
    · rw [mergeSort_eq_of_perm (h.map CacheKey.hash)]
    · exact mergeSort_eq_of_perm (flatten_perm_of_perm (h.map CacheKey.payloads))

/-- Witness for C8 on a concrete two-key permutation. -/
theorem c8_combine_cache_keys_perm_witness :
    CacheKeyGenerator.combine_cache_keys [⟨"a", "h1", ["p"]⟩, ⟨"b", "h2", ["q"]⟩] =
    CacheKeyGenerator.combine_cache_keys [⟨"b", "h2", ["q"]⟩, ⟨"a", "h1", ["p"]⟩] :=
  c8_combine_cache_keys_perm _ _ (List.Perm.swap _ _ _)

/-- C9. `combine_cache_keys` on a singleton list returns the key unchanged. -/
theorem c9_combine_cache_keys_singleton (k : CacheKey) :
    CacheKeyGenerator.combine_cache_keys [k] = k := rfl

/-- C2 (code bug, shown at a failing input).  After `try_insert` on an empty
non-read-only cache, `has` returns false — it tests `isdir` on
`cache_root/id/hash`, a directory `try_insert` never creates — while
`use_cached_files` on the very same state does find the inserted tarball. -/
theorem c2_has_after_try_insert_code_bug :
    LocalArtifactCache.has ["cache"]
      (LocalArtifactCache.try_insert ["cache"] true false ⟨[], []⟩ ⟨"i", "h", []⟩)
      ⟨"i", "h", []⟩ = false ∧
    LocalArtifactCache.use_cached_files ["cache"] true
      (LocalArtifactCache.try_insert ["cache"] true false ⟨[], []⟩ ⟨"i", "h", []⟩)
      ⟨"i", "h", []⟩ = some ["cache", "i", "h.tar.gz"] := by decide

/-- C3 (code bug, shown at a failing input).  With compression enabled the
cache file path is `cache_root/id/hash.tar.gz` as the claim states, but with
compression disabled the operator precedence of the source line makes
`_cache_file_for_key` return the bare relative path `.tar` for every key. -/
theorem c3_cache_file_for_key_code_bug :
    LocalArtifactCache.cache_file_for_key ["cache"] true ⟨"i", "h", []⟩ =
      ["cache", "i", "h.tar.gz"] ∧
    LocalArtifactCache.cache_file_for_key ["cache"] false ⟨"i", "h", []⟩ = [".tar"] := by
  decide

/-- C6. A target-constructor call made while evaluating a BUILD file fails
exactly when `name` is missing, a positional argument is supplied, or
`build_file` is supplied explicitly; otherwise the constructed `TargetProxy`
is added to the registered set. -/
theorem c6_target_call_fails_iff (tt : String) (bf : BuildFileId)
    (registered : List TargetProxy) (args : List PyVal) (kwargs : Kwargs) :
    ((∃ e, TargetCallProxy.call tt bf registered args kwargs = .error e) ↔
      (kwContains kwargs "name" = false ∨ args ≠ [] ∨
        kwContains kwargs "build_file" = true)) ∧
    (kwContains kwargs "name" = true → args = [] →
      kwContains kwargs "build_file" = false →
      ∃ p, TargetProxy.init tt bf args kwargs = .ok p ∧
        TargetCallProxy.call tt bf registered args kwargs = .ok (p :: registered)) := by
  by_cases h1 : kwContains kwargs "name" = false
  · simp [TargetCallProxy.call, TargetProxy.init, h1, Except.map]
  · have h1' : kwContains kwargs "name" = true := by
      cases h : kwContains kwargs "name" <;> simp [h] at h1 ⊢
    by_cases h2 : args = []
    · subst h2
      by_cases h3 : kwContains kwargs "build_file" = true
      · simp [TargetCallProxy.call, TargetProxy.init, h1', h3, Except.map]
      · have h3' : kwContains kwargs "build_file" = false := by
          cases h : kwContains kwargs "build_file" <;> simp [h] at h3 ⊢
        simp [TargetCallProxy.call, TargetProxy.init, h1', h3', Except.map]
    · simp [TargetCallProxy.call, TargetProxy.init, h1', h2, Except.map]

/-- Witness for C6: a well-formed declaration registers its proxy. -/
theorem c6_target_call_fails_iff_witness :
    ∃ p, TargetProxy.init "java_library" ⟨"r", "d", "BUILD"⟩ []
        [("name", PyVal.str "t")] = .ok p ∧
      TargetCallProxy.call "java_library" ⟨"r", "d", "BUILD"⟩ [] []
        [("name", PyVal.str "t")] = .ok [p] :=
  (c6_target_call_fails_iff "java_library" ⟨"r", "d", "BUILD"⟩ [] []
    [("name", PyVal.str "t")]).2 (by decide) rfl (by decide)

/-- helper: looking up a key removed by `pop`'s filter yields nothing. -/
theorem lookup_filter_ne_none (k : String) (l : Kwargs) :
    (l.filter (fun e => !decide (e.1 = k))).lookup k = none := by
  induction l with
  | nil => rfl
  | cons e t ih =>
      by_cases he : e.1 = k
      · simpa [List.filter_cons, he] using ih
      · have hk : (k == e.1) = false := by
          simp only [beq_eq_false_iff_ne]
          exact fun hx => he hx.symm
        simpa [List.filter_cons, he, List.lookup, hk] using ih

/-- C10. A successful `TargetProxy.__init__` pops `dependencies` out of the
stored kwargs (defaulting to the empty list when absent), so `to_target`
invokes the target type with the remaining kwargs only and the constructor
never receives a `dependencies` keyword. -/
theorem c10_dependencies_popped (tt : String) (bf : BuildFileId)
    (args : List PyVal) (kwargs : Kwargs) (p : TargetProxy) (g : Nat)
    (h : TargetProxy.init tt bf args kwargs = .ok p) :
    p.kwargs.lookup "dependencies" = none ∧
    p.dependencies = (kwargs.lookup "dependencies").getD (.pylist []) ∧
    (p.to_target g).kwargs = p.kwargs ∧
    (p.to_target g).kwargs.lookup "dependencies" = none := by
  by_cases h1 : kwContains kwargs "name" = false
  · simp [TargetProxy.init, h1] at h
  · have h1' : kwContains kwargs "name" = true := by
      cases hx : kwContains kwargs "name" <;> simp [hx] at h1 ⊢
    by_cases h2 : args = []
    · subst h2
      by_cases h3 : kwContains kwargs "build_file" = true
      · simp [TargetProxy.init, h1', h3] at h
      · have h3' : kwContains kwargs "build_file" = false := by
          cases hx : kwContains kwargs "build_file" <;> simp [hx] at h3 ⊢
        simp [TargetProxy.init, h1', h3', kwPop] at h
        subst h
        refine ⟨lookup_filter_ne_none _ _, rfl, rfl, ?_⟩
        simp only [TargetProxy.to_target]
        exact lookup_filter_ne_none _ _
    · simp [TargetProxy.init, h1', h2] at h

/-- Witness for C10 at a declaration carrying a dependency list. -/
theorem c10_dependencies_popped_witness :
    c10WitnessProxy.kwargs.lookup "dependencies" = none ∧
    c10WitnessProxy.dependencies =
      (([("name", PyVal.str "x"), ("dependencies", PyVal.pylist [":a"])] :
        Kwargs).lookup "dependencies").getD (.pylist []) ∧
    (c10WitnessProxy.to_target 0).kwargs = c10WitnessProxy.kwargs ∧
    (c10WitnessProxy.to_target 0).kwargs.lookup "dependencies" = none :=
  c10_dependencies_popped "java_library" ⟨"r", "d", "BUILD"⟩ []
    [("name", PyVal.str "x"), ("dependencies", PyVal.pylist [":a"])]
    c10WitnessProxy 0 rfl

/-- helper: cons with a non-matching key leaves a lookup unchanged. -/
theorem lookup_cons_ne {α β : Type} [BEq α] {a k : α} (hk : (a == k) = false)
    (v : β) (l : List (α × β)) : ((k, v) :: l).lookup a = l.lookup a := by
  simp [List.lookup, hk]

/-- helper: cons then lookup of the same key finds the new value. -/
theorem lookup_cons_self {α β : Type} [BEq α] [LawfulBEq α] (k : α) (v : β)
    (l : List (α × β)) : ((k, v) :: l).lookup k = some v := by
  simp [List.lookup]

/-- helper: a proxy-map entry survives the recording loop of a BUILD file. -/
theorem recordProxies_persist (bf : BuildFileModel) (ns : List String)
    (st st' : ParserState) (err : Option ParseErr)
    (h : BuildFileParser.recordProxies bf st ns = (st', err))
    (a : Address) (v : String)
    (hv : st.target_proxy_by_address.lookup a = some v) :
    st'.target_proxy_by_address.lookup a = some v := by
  induction ns generalizing st with
  | nil =>
      simp only [BuildFileParser.recordProxies] at h
      injection h with h1 h2
      subst h1
      exact hv
  | cons n rest ih =>
      by_cases hc1 : (st.target_proxy_by_address.lookup ⟨bf.dir, n⟩).isSome = true
      · simp only [BuildFileParser.recordProxies, if_pos hc1] at h
        injection h with h1 h2
        subst h1
        exact hv
      · by_cases hc2 :
            ((st.addresses_by_build_file.lookup bf).getD []).contains ⟨bf.dir, n⟩ = true
        · simp only [BuildFileParser.recordProxies, if_neg hc1, if_pos hc2] at h
          injection h with h1 h2
          subst h1
          exact hv
        · simp only [BuildFileParser.recordProxies, if_neg hc1, if_neg hc2] at h
          refine ih _ h ?_
          have hne : (a == (⟨bf.dir, n⟩ : Address)) = false := by
            rw [beq_eq_false_iff_ne]
            intro heq
            rw [← heq, hv] at hc1
            exact hc1 rfl
          rw [lookup_cons_ne hne]
          exact hv

/-- helper: a successful recording loop marks exactly its file parsed. -/
theorem recordProxies_added (bf : BuildFileModel) (ns : List String)
    (st st' : ParserState)
    (h : BuildFileParser.recordProxies bf st ns = (st', none)) :
    st'.added_build_files = bf :: st.added_build_files := by
  induction ns generalizing st with
  | nil =>
      simp only [BuildFileParser.recordProxies] at h
      injection h with h1 h2
      subst h1
      rfl
  | cons n rest ih =>
      by_cases hc1 : (st.target_proxy_by_address.lookup ⟨bf.dir, n⟩).isSome = true
      · simp only [BuildFileParser.recordProxies, if_pos hc1] at h
        injection h with h1 h2
        cases h2
      · by_cases hc2 :
            ((st.addresses_by_build_file.lookup bf).getD []).contains ⟨bf.dir, n⟩ = true
        · simp only [BuildFileParser.recordProxies, if_neg hc1, if_pos hc2] at h
          injection h with h1 h2
          cases h2
        · simp only [BuildFileParser.recordProxies, if_neg hc1, if_neg hc2] at h
          have hrec := ih _ h
          exact hrec

/-- helper: a successful recording loop records every declared name. -/
theorem recordProxies_records (bf : BuildFileModel) (ns : List String)
    (st st' : ParserState)
    (h : BuildFileParser.recordProxies bf st ns = (st', none)) :
    ∀ n ∈ ns, (st'.target_proxy_by_address.lookup ⟨bf.dir, n⟩).isSome = true := by
  induction ns generalizing st with
  | nil => intro n hn; cases hn
  | cons n rest ih =>
      by_cases hc1 : (st.target_proxy_by_address.lookup ⟨bf.dir, n⟩).isSome = true
      · simp only [BuildFileParser.recordProxies, if_pos hc1] at h
        injection h with h1 h2
        cases h2
      · by_cases hc2 :
            ((st.addresses_by_build_file.lookup bf).getD []).contains ⟨bf.dir, n⟩ = true
        · simp only [BuildFileParser.recordProxies, if_neg hc1, if_pos hc2] at h
          injection h with h1 h2
          cases h2
        · simp only [BuildFileParser.recordProxies, if_neg hc1, if_neg hc2] at h
          intro m hm
          rcases List.mem_cons.mp hm with rfl | hm'
          · have hrec := recordProxies_persist bf rest _ _ _ h ⟨bf.dir, m⟩ m
              (lookup_cons_self _ _ _)
            rw [hrec]
            rfl
          · exact ih _ h m hm'

/-- helper: a proxy-map entry survives `parse_build_file`. -/
theorem parse_build_file_persist (bf : BuildFileModel) (st st' : ParserState)
    (err : Option ParseErr)
    (h : BuildFileParser.parse_build_file bf st = (st', err))
    (a : Address) (v : String)
    (hv : st.target_proxy_by_address.lookup a = some v) :
    st'.target_proxy_by_address.lookup a = some v := by
  by_cases hc : st.added_build_files.contains bf = true
  · simp only [BuildFileParser.parse_build_file, if_pos hc] at h
    injection h with h1 h2
    subst h1
    exact hv
  · simp only [BuildFileParser.parse_build_file, if_neg hc] at h
    exact recordProxies_persist bf bf.decls st st' err h a v hv

/-- helper: a proxy-map entry survives the family loop. -/
theorem parseFamilyList_persist (fs : List BuildFileModel)
    (st st' : ParserState) (err : Option ParseErr)
    (h : BuildFileParser.parseFamilyList st fs = (st', err))
    (a : Address) (v : String)
    (hv : st.target_proxy_by_address.lookup a = some v) :
    st'.target_proxy_by_address.lookup a = some v := by
  induction fs generalizing st with
  | nil =>
      simp only [BuildFileParser.parseFamilyList] at h
      injection h with h1 h2
      subst h1
      exact hv
  | cons bf rest ih =>
      simp only [BuildFileParser.parseFamilyList] at h
      rcases hpe : BuildFileParser.parse_build_file bf st with ⟨st1, e⟩
      rw [hpe] at h
      cases e with
      | some e0 =>
          injection h with h1 h2
          subst h1
          exact parse_build_file_persist bf st st1 (some e0) hpe a v hv
      | none =>
          exact ih _ h (parse_build_file_persist bf st st1 none hpe a v hv)

/-- helper: a successful family loop records every declaration of every
member that was not already parsed when the loop reached it. -/
theorem parseFamilyList_records (fs : List BuildFileModel)
    (st st' : ParserState)
    (h : BuildFileParser.parseFamilyList st fs = (st', none)) :
    ∀ f ∈ fs, st.added_build_files.contains f = true ∨
      ∀ n ∈ f.decls,
        (st'.target_proxy_by_address.lookup ⟨f.dir, n⟩).isSome = true := by
  induction fs generalizing st with
  | nil => intro f hf; cases hf
  | cons bf rest ih =>
      simp only [BuildFileParser.parseFamilyList] at h
      rcases hpe : BuildFileParser.parse_build_file bf st with ⟨st1, e⟩
      rw [hpe] at h
      cases e with
      | some e0 => injection h with h1 h2; cases h2
      | none =>
          intro f hf
          by_cases hcadd : st.added_build_files.contains bf = true
          · have hskip : st1 = st := by
              simp only [BuildFileParser.parse_build_file, if_pos hcadd] at hpe
              injection hpe with h1 h2
              exact h1.symm
            subst hskip
            rcases List.mem_cons.mp hf with rfl | hf'
            · exact Or.inl hcadd
            · exact ih _ h f hf'
          · have hrec : BuildFileParser.recordProxies bf st bf.decls = (st1, none) := by
              simpa only [BuildFileParser.parse_build_file, if_neg hcadd] using hpe
            have hbf_rec : ∀ n ∈ bf.decls,
                (st'.target_proxy_by_address.lookup ⟨bf.dir, n⟩).isSome = true := by
              intro n hn
              have h1 := recordProxies_records bf bf.decls st st1 hrec n hn
              rcases Option.isSome_iff_exists.mp h1 with ⟨v, hv⟩
              have h2 := parseFamilyList_persist rest st1 st' none h _ v hv
              rw [h2]; rfl
            rcases List.mem_cons.mp hf with rfl | hf'
            · exact Or.inr hbf_rec
            · rcases ih _ h f hf' with hl | hr
              · have hadded := recordProxies_added bf bf.decls st st1 hrec
                rw [hadded, List.contains_cons, Bool.or_eq_true] at hl
                rcases hl with hfb | hl'
                · have hfb' : f = bf := eq_of_beq hfb
                  subst hfb'
                  exact Or.inr hbf_rec
                · exact Or.inl hl'
              · exact Or.inr hr

/-- C7 counterexample: two sibling BUILD files both declaring target `x`.
Evaluating the family fails with DuplicateAddress, yet the first file's
proxy at address `d:x` remains recorded — the family is not evaluated
atomically as the claim states. -/
theorem c7_family_not_atomic_counterexample :
    (BuildFileParser.parse_build_file_family
        [⟨"d", "BUILD", ["x"]⟩, ⟨"d", "BUILD.dup", ["x"]⟩]
        ⟨"d", "BUILD", ["x"]⟩ ⟨[], [], [], []⟩).2 = some .duplicateAddress ∧
    ((BuildFileParser.parse_build_file_family
        [⟨"d", "BUILD", ["x"]⟩, ⟨"d", "BUILD.dup", ["x"]⟩]
        ⟨"d", "BUILD", ["x"]⟩ ⟨[], [], [], []⟩).1.target_proxy_by_address.lookup
      ⟨"d", "x"⟩).isSome = true := by decide

/-- C7 (as amended).  Family evaluation has no rollback: on success every
declaration of every family member not previously parsed is recorded, and on
success or failure alike every proxy recorded before the failure point
(including those recorded by earlier files of the failing evaluation)
remains recorded. -/
theorem c7_family_amended (files : List BuildFileModel) (bf : BuildFileModel)
    (st st' : ParserState) (err : Option ParseErr)
    (h : BuildFileParser.parse_build_file_family files bf st = (st', err))
    (hmemo : st.added_build_file_families.contains bf = false) :
    (err = none → ∀ f ∈ BuildFileParser.family files bf,
      st.added_build_files.contains f = true ∨
        ∀ n ∈ f.decls,
          (st'.target_proxy_by_address.lookup ⟨f.dir, n⟩).isSome = true) ∧
    (∀ a v, st.target_proxy_by_address.lookup a = some v →
      st'.target_proxy_by_address.lookup a = some v) := by
  have hmemo' : ¬ st.added_build_file_families.contains bf = true := by
    rw [hmemo]; exact Bool.false_ne_true
  simp only [BuildFileParser.parse_build_file_family, if_neg hmemo'] at h
  rcases hfl : BuildFileParser.parseFamilyList st (BuildFileParser.family files bf)
    with ⟨st1, e⟩
  rw [hfl] at h
  cases e with
  | some e0 =>
      injection h with h1 h2
      subst h1
      constructor
      · intro hnone; rw [← h2] at hnone; cases hnone
      · intro a v hv
        exact parseFamilyList_persist _ st st1 (some e0) hfl a v hv
  | none =>
      injection h with h1 h2
      subst h1
      constructor
      · intro _ f hf
        rcases parseFamilyList_records _ st st1 hfl f hf with hl | hr
        · exact Or.inl hl
        · exact Or.inr hr
      · intro a v hv
        exact parseFamilyList_persist _ st st1 none hfl a v hv

/-- Witness for C7's amended statement: a single-file family evaluates
successfully and its declaration is recorded. -/
theorem c7_family_amended_witness :
    ((BuildFileParser.parse_build_file_family [⟨"d", "BUILD", ["x"]⟩]
        ⟨"d", "BUILD", ["x"]⟩ ⟨[], [], [], []⟩).1.target_proxy_by_address.lookup
      ⟨"d", "x"⟩).isSome = true := by
  have hm := c7_family_amended [⟨"d", "BUILD", ["x"]⟩] ⟨"d", "BUILD", ["x"]⟩
    ⟨[], [], [], []⟩
    (BuildFileParser.parse_build_file_family [⟨"d", "BUILD", ["x"]⟩]
      ⟨"d", "BUILD", ["x"]⟩ ⟨[], [], [], []⟩).1
    (BuildFileParser.parse_build_file_family [⟨"d", "BUILD", ["x"]⟩]
      ⟨"d", "BUILD", ["x"]⟩ ⟨[], [], [], []⟩).2
    rfl rfl
  rcases hm.1 (by decide) ⟨"d", "BUILD", ["x"]⟩ (by decide) with hl | hr
  · exact absurd hl (by decide)
  · exact hr "x" (by decide)

/-- helper: a successful lookup means the key is among the map's keys. -/
theorem lookup_some_mem_fst {α β : Type} [BEq α] [LawfulBEq α]
    {l : List (α × β)} {a : α} {b : β} (h : l.lookup a = some b) :
    a ∈ l.map Prod.fst := by
  induction l with
  | nil => cases h
  | cons e t ih =>
      simp only [List.lookup] at h
      cases hbe : a == e.1 with
      | true =>
          have : a = e.1 := eq_of_beq hbe
          simp [this]
      | false =>
          rw [hbe] at h
          exact List.mem_cons_of_mem _ (ih h)

/-- helper: the address of a successful lookup lies in the proxy universe. -/
theorem lookup_mem_proxyUniverse {pm : ProxyMap} {a : Address} {node : ProxyNode}
    (h : pm.lookup a = some node) : a ∈ proxyUniverse pm := by
  simpa [proxyUniverse, List.mem_toFinset] using lookup_some_mem_fst h

/-- helper: inserting a universe member not yet visited shrinks the unvisited
count. -/
theorem card_sdiff_insert_lt {U c : Finset Address} {a : Address}
    (ha : a ∈ U) (hc : a ∉ c) {n : Nat} (hlt : (U \ c).card < n + 1) :
    (U \ insert a c).card < n := by
  have h1 : U \ insert a c = (U \ c).erase a := by
    ext x
    simp only [Finset.mem_sdiff, Finset.mem_erase, Finset.mem_insert, not_or]
    tauto
  have h2 : a ∈ U \ c := Finset.mem_sdiff.mpr ⟨ha, hc⟩
  have h3 : 0 < (U \ c).card := Finset.card_pos.mpr ⟨a, h2⟩
  rw [h1, Finset.card_erase_of_mem h2]
  omega

/-- helper: a growing visited set never increases the unvisited count. -/
theorem card_sdiff_le_of_subset {U c c' : Finset Address} (h : c ⊆ c') :
    (U \ c').card ≤ (U \ c).card :=
  Finset.card_le_card (Finset.sdiff_subset_sdiff (Finset.Subset.refl U) h)

/-- helper: the dependency loop of populate only grows the visited set. -/
theorem populateFold_mono (pm : ProxyMap) (fuel : Nat)
    (haux : ∀ a c c', populateAux pm fuel a c = some (.ok c') → c ⊆ c') :
    ∀ ds c c', closureFold (populateAux pm fuel) ds c = some (.ok c') → c ⊆ c' := by
  intro ds
  induction ds with
  | nil =>
      intro c c' h
      simp only [closureFold, Option.some.injEq, Except.ok.injEq] at h
      subst h
      exact Finset.Subset.refl c
  | cons d ds ih =>
      intro c c' h
      simp only [closureFold] at h
      cases hpa : populateAux pm fuel d c with
      | none => rw [hpa] at h; cases h
      | some r =>
          rw [hpa] at h
          cases r with
          | error e => simp at h
          | ok c1 => exact (haux d c c1 hpa).trans (ih c1 c' h)

/-- helper: populate only grows the visited set. -/
theorem populateAux_mono (pm : ProxyMap) :
    ∀ fuel a c c', populateAux pm fuel a c = some (.ok c') → c ⊆ c' := by
  intro fuel
  induction fuel with
  | zero => intro a c c' h; simp [populateAux] at h
  | succ n ih =>
      intro a c c' h
      simp only [populateAux] at h
      by_cases hc : a ∈ c
      · rw [if_pos hc] at h
        simp only [Option.some.injEq, Except.ok.injEq] at h
        subst h
        exact Finset.Subset.refl c
      · rw [if_neg hc] at h
        cases hl : pm.lookup a with
        | none => rw [hl] at h; simp at h
        | some proxy =>
            rw [hl] at h
            exact (Finset.subset_insert a c).trans
              (populateFold_mono pm n (fun a' c1 c1' => ih a' c1 c1') _ _ _ h)

/-- helper: the dependency loop of populate cannot exhaust adequate fuel. -/
theorem populateFold_not_none (pm : ProxyMap) (fuel : Nat)
    (hauxs : ∀ a c, ((proxyUniverse pm) \ c).card < fuel →
      populateAux pm fuel a c ≠ none) :
    ∀ ds c, ((proxyUniverse pm) \ c).card < fuel →
      closureFold (populateAux pm fuel) ds c ≠ none := by
  intro ds
  induction ds with
  | nil => intro c hcard h; simp [closureFold] at h
  | cons d ds ih =>
      intro c hcard h
      simp only [closureFold] at h
      cases hpa : populateAux pm fuel d c with
      | none => exact hauxs d c hcard hpa
      | some r =>
          rw [hpa] at h
          cases r with
          | error e => cases h
          | ok c1 =>
              have hsub := populateAux_mono pm fuel d c c1 hpa
              exact ih c1 (lt_of_le_of_lt (card_sdiff_le_of_subset hsub) hcard) h

/-- helper: populate cannot exhaust adequate fuel. -/
theorem populateAux_not_none (pm : ProxyMap) :
    ∀ fuel a c, ((proxyUniverse pm) \ c).card < fuel →
      populateAux pm fuel a c ≠ none := by
  intro fuel
  induction fuel with
  | zero => intro a c hcard; exact absurd hcard (Nat.not_lt_zero _)
  | succ n ih =>
      intro a c hcard h
      simp only [populateAux] at h
      by_cases hc : a ∈ c
      · rw [if_pos hc] at h; cases h
      · rw [if_neg hc] at h
        cases hl : pm.lookup a with
        | none => rw [hl] at h; cases h
        | some proxy =>
            rw [hl] at h
            have ha : a ∈ proxyUniverse pm := lookup_mem_proxyUniverse hl
            exact populateFold_not_none pm n ih _ _
              (card_sdiff_insert_lt ha hc hcard) h

/-- helper: the public populate entry always returns a value. -/
theorem populate_run_not_none (pm : ProxyMap) (address : Address) :
    populate_target_proxy_transitive_closure_for_address pm address ≠ none := by
  apply populateAux_not_none
  simp

/-- helper: the injection postcondition is reflexive. -/
theorem injectPost_refl (pm : ProxyMap) (g : BuildGraph) (c : Finset Address) :
    InjectPost pm g c g c :=
  ⟨fun _ h => h, fun _ h => h, Finset.Subset.refl c,
   fun _ h => Or.inl h, fun _ h => Or.inl h, fun _ _ h => Or.inl h⟩

/-- helper: the injection postcondition composes along consecutive steps. -/
theorem injectPost_trans {pm : ProxyMap} {g g1 g2 : BuildGraph}
    {c c1 c2 : Finset Address}
    (hP : InjectPost pm g c g1 c1) (hQ : InjectPost pm g1 c1 g2 c2) :
    InjectPost pm g c g2 c2 := by
  obtain ⟨P1, P2, P3, P4, P5, P6⟩ := hP
  obtain ⟨Q1, Q2, Q3, Q4, Q5, Q6⟩ := hQ
  refine ⟨fun x h => Q1 x (P1 x h), fun e h => Q2 e (P2 e h), P3.trans Q3, ?_, ?_, ?_⟩
  · intro x hx
    rcases Q4 x hx with h1 | h2
    · rcases P4 x h1 with h3 | h4
      · exact Or.inl h3
      · exact Or.inr (Q3 h4)
    · exact Or.inr h2
  · intro x hx
    rcases Q5 x hx with h1 | ⟨hn, hd⟩
    · rcases P5 x h1 with h2 | ⟨hn1, hd1⟩
      · exact Or.inl h2
      · refine Or.inr ⟨Q1 x hn1, ?_⟩
        intro node hnode d hdmem
        rcases hd1 node hnode d hdmem with h3 | h4
        · exact Or.inl (Q1 d h3)
        · exact Or.inr (Q3 h4)
    · exact Or.inr ⟨hn, hd⟩
  · intro a ds hads
    rcases Q6 a ds hads with h1 | h2
    · rcases P6 a ds h1 with h3 | h4
      · exact Or.inl h3
      · refine Or.inr ?_
        intro d hd
        rcases h4 d hd with h5 | h6
        · exact Or.inl (Q1 d h5)
        · exact Or.inr (Q3 h6)
    · exact Or.inr h2

/-- helper: the loops of the injection traversal satisfy the postcondition
and leave every processed address injected or visited. -/
theorem injectFold_post (pm : ProxyMap) (fuel : Nat)
    (haux : ∀ a g c g' c', injectAux pm fuel a g c = some (.ok (g', c')) →
      InjectPost pm g c g' c' ∧ (a ∈ g'.nodes ∨ a ∈ c')) :
    ∀ ds g c g' c', closureFold (fun d s => injectAux pm fuel d s.1 s.2) ds (g, c) =
        some (.ok (g', c')) →
      InjectPost pm g c g' c' ∧ ∀ d ∈ ds, d ∈ g'.nodes ∨ d ∈ c' := by
  intro ds
  induction ds with
  | nil =>
      intro g c g' c' h
      simp only [closureFold, Option.some.injEq, Except.ok.injEq, Prod.mk.injEq] at h
      obtain ⟨rfl, rfl⟩ := h
      exact ⟨injectPost_refl pm g c, fun d hd => absurd hd (List.not_mem_nil d)⟩
  | cons d ds ih =>
      intro g c g' c' h
      simp only [closureFold] at h
      cases hpa : injectAux pm fuel d g c with
      | none => rw [hpa] at h; cases h
      | some r =>
          rw [hpa] at h
          cases r with
          | error e => simp at h
          | ok p =>
              obtain ⟨g1, c1⟩ := p
              obtain ⟨hP, hd⟩ := haux d g c g1 c1 hpa
              obtain ⟨hQ, hds⟩ := ih g1 c1 g' c' h
              refine ⟨injectPost_trans hP hQ, ?_⟩
              intro d' hd'
              rcases List.mem_cons.mp hd' with rfl | hmem
              · rcases hd with hn | hc
                · exact Or.inl (hQ.1 d' hn)
                · exact Or.inr (hQ.2.2.1 hc)
              · exact hds d' hmem

/-- helper: the injection traversal establishes the postcondition and leaves
its address injected or visited. -/
theorem injectAux_post (pm : ProxyMap) :
    ∀ fuel a g c g' c', injectAux pm fuel a g c = some (.ok (g', c')) →
      InjectPost pm g c g' c' ∧ (a ∈ g'.nodes ∨ a ∈ c') := by
  intro fuel
  induction fuel with
  | zero => intro a g c g' c' h; simp [injectAux] at h
  | succ n ih =>
      intro a g c g' c' h
      simp only [injectAux] at h
      cases hpr : populate_target_proxy_transitive_closure_for_address pm a with
      | none => rw [hpr] at h; cases h
      | some r =>
          rw [hpr] at h
          cases r with
          | error e => simp at h
          | ok cset =>
              cases hl : pm.lookup a with
              | none => rw [hl] at h; simp at h
              | some proxy =>
                  rw [hl] at h
                  dsimp only at h
                  by_cases hskip : g.contains_address a = true ∨ a ∈ c
                  · rw [if_pos hskip] at h
                    simp only [Option.some.injEq, Except.ok.injEq, Prod.mk.injEq] at h
                    obtain ⟨rfl, rfl⟩ := h
                    refine ⟨injectPost_refl pm g c, ?_⟩
                    rcases hskip with hcont | hmem
                    · refine Or.inl ?_
                      simpa [BuildGraph.contains_address, List.contains] using hcont
                    · exact Or.inr hmem
                  · rw [if_neg hskip] at h
                    cases hfold : closureFold (fun d s => injectAux pm n d s.1 s.2)
                        proxy.dependency_addresses (g, insert a c) with
                    | none => rw [hfold] at h; cases h
                    | some r1 =>
                        rw [hfold] at h
                        cases r1 with
                        | error e => simp at h
                        | ok p1 =>
                            obtain ⟨g1, c1⟩ := p1
                            obtain ⟨hPdep, hdeps⟩ :=
                              injectFold_post pm n
                                (fun a' g0 c0 g0' c0' => ih a' g0 c0 g0' c0')
                                _ _ _ _ _ hfold
                            obtain ⟨hPtrav, _⟩ :=
                              injectFold_post pm n
                                (fun a' g0 c0 g0' c0' => ih a' g0 c0 g0' c0')
                                _ _ _ _ _ h
                            obtain ⟨D1, D2, D3, D4, D5, D6⟩ := hPdep
                            obtain ⟨T1, T2, T3, T4, T5, T6⟩ := hPtrav
                            have L1 : ∀ x, x ∈ g1.nodes → x ∈ g'.nodes :=
                              fun x hx => T1 x (List.mem_cons_of_mem a hx)
                            have La : a ∈ g'.nodes :=
                              T1 a (List.mem_cons_self a g1.nodes)
                            have LcAll : insert a c ⊆ c' := D3.trans T3
                            have LuD : ∀ d ∈ proxy.dependency_addresses,
                                d ∈ g'.nodes ∨ d ∈ c' := by
                              intro d hd
                              rcases hdeps d hd with hx | hx
                              · exact Or.inl (L1 d hx)
                              · exact Or.inr (T3 hx)
                            have L2 : ∀ e ∈ g1.edges, e ∈ g'.edges :=
                              fun e he => T2 e (List.mem_cons_of_mem _ he)
                            refine ⟨⟨?_, ?_, ?_, ?_, ?_, ?_⟩, Or.inl La⟩
                            · exact fun x hx => L1 x (D1 x hx)
                            · exact fun e he => L2 e (D2 e he)
                            · exact (Finset.subset_insert a c).trans LcAll
                            · intro x hx
                              rcases T4 x hx with hx2 | hxc
                              · rcases List.mem_cons.mp hx2 with rfl | hx1
                                · exact Or.inr (LcAll (Finset.mem_insert_self x c))
                                · rcases D4 x hx1 with hg | hc1
                                  · exact Or.inl hg
                                  · exact Or.inr (T3 hc1)
                              · exact Or.inr hxc
                            · intro x hx
                              rcases T5 x hx with hxc1 | hdone
                              · rcases D5 x hxc1 with hxin | ⟨hn1, hd1⟩
                                · rcases Finset.mem_insert.mp hxin with rfl | hxc
                                  · refine Or.inr ⟨La, ?_⟩
                                    intro node hnode d hdm
                                    rw [hl] at hnode
                                    injection hnode with hnp
                                    subst hnp
                                    exact LuD d hdm
                                  · exact Or.inl hxc
                                · refine Or.inr ⟨L1 x hn1, ?_⟩
                                  intro node hnode d hdm
                                  rcases hd1 node hnode d hdm with h5 | h6
                                  · exact Or.inl (L1 d h5)
                                  · exact Or.inr (T3 h6)
                              · exact Or.inr hdone
                            · intro a' ds hads
                              rcases T6 a' ds hads with h2 | hnew
                              · rcases List.mem_cons.mp h2 with heq | h1
                                · cases heq
                                  exact Or.inr LuD
                                · rcases D6 a' ds h1 with h0 | hds1
                                  · exact Or.inl h0
                                  · refine Or.inr ?_
                                    intro d hd
                                    rcases hds1 d hd with h5 | h6
                                    · exact Or.inl (L1 d h5)
                                    · exact Or.inr (T3 h6)
                              · exact Or.inr hnew

/-- helper: the loops of the injection traversal cannot exhaust adequate
fuel. -/
theorem injectFold_not_none (pm : ProxyMap) (fuel : Nat)
    (hauxs : ∀ a g c, ((proxyUniverse pm) \ c).card < fuel →
      injectAux pm fuel a g c ≠ none) :
    ∀ ds g c, ((proxyUniverse pm) \ c).card < fuel →
      closureFold (fun d s => injectAux pm fuel d s.1 s.2) ds (g, c) ≠ none := by
  intro ds
  induction ds with
  | nil => intro g c hcard h; simp [closureFold] at h
  | cons d ds ih =>
      intro g c hcard h
      simp only [closureFold] at h
      cases hpa : injectAux pm fuel d g c with
      | none => exact hauxs d g c hcard hpa
      | some r =>
          rw [hpa] at h
          cases r with
          | error e => cases h
          | ok p =>
              obtain ⟨g1, c1⟩ := p
              have hmono := (injectAux_post pm fuel d g c g1 c1 hpa).1.2.2.1
              exact ih g1 c1
                (lt_of_le_of_lt (card_sdiff_le_of_subset hmono) hcard) h

/-- helper: the injection traversal cannot exhaust adequate fuel. -/
theorem injectAux_not_none (pm : ProxyMap) :
    ∀ fuel a g c, ((proxyUniverse pm) \ c).card < fuel →
      injectAux pm fuel a g c ≠ none := by
  intro fuel
  induction fuel with
  | zero => intro a g c hcard; exact absurd hcard (Nat.not_lt_zero _)
  | succ n ih =>
      intro a g c hcard h
      simp only [injectAux] at h
      cases hpr : populate_target_proxy_transitive_closure_for_address pm a with
      | none => exact populate_run_not_none pm a hpr
      | some r =>
          rw [hpr] at h
          cases r with
          | error e => cases h
          | ok cset =>
              cases hl : pm.lookup a with
              | none => rw [hl] at h; cases h
              | some proxy =>
                  rw [hl] at h
                  dsimp only at h
                  by_cases hskip : g.contains_address a = true ∨ a ∈ c
                  · rw [if_pos hskip] at h; cases h
                  · rw [if_neg hskip] at h
                    have ha : a ∈ proxyUniverse pm := lookup_mem_proxyUniverse hl
                    have hanotc : a ∉ c := fun hmem => hskip (Or.inr hmem)
                    have hcard1 := card_sdiff_insert_lt ha hanotc hcard
                    cases hfold : closureFold (fun d s => injectAux pm n d s.1 s.2)
                        proxy.dependency_addresses (g, insert a c) with
                    | none => exact injectFold_not_none pm n ih _ _ _ hcard1 hfold
                    | some r1 =>
                        rw [hfold] at h
                        cases r1 with
                        | error e => cases h
                        | ok p1 =>
                            obtain ⟨g1, c1⟩ := p1
                            have hmono :=
                              (injectFold_post pm n
                                (fun a' g0 c0 g0' c0' =>
                                  injectAux_post pm n a' g0 c0 g0' c0')
                                _ _ _ _ _ hfold).1.2.2.1
                            exact injectFold_not_none pm n ih _ _ _
                              (lt_of_le_of_lt (card_sdiff_le_of_subset hmono) hcard1) h

/-- C5.  Both closure traversals terminate on every input — including
declaration-level dependency cycles — because an address already in the
visited set is never recursed into again: the fuel bound computed from the
proxy map is never exhausted, so the traversals always return a value. -/
theorem c5_closure_traversals_terminate (pm : ProxyMap) (address : Address)
    (g : BuildGraph) :
    (populate_target_proxy_transitive_closure_for_address pm address).isSome = true ∧
    (inject_spec_closure_into_build_graph pm address g).isSome = true := by
  constructor
  · exact Option.ne_none_iff_isSome.mp (populate_run_not_none pm address)
  · refine Option.ne_none_iff_isSome.mp ?_
    apply injectAux_not_none
    simp

/-- C4 counterexample: a graph that already contains `p:a` (without the
closure of `p:a`).  Injecting the spec `p:a` succeeds but changes nothing,
so the dependency `p:b`, reachable from `p:a` via declared dependency specs,
is absent from the resulting graph — the claim fails for such a graph. -/
theorem c4_inject_closure_counterexample :
    inject_spec_closure_into_build_graph
      [(⟨"p", "a"⟩, ⟨[⟨"p", "b"⟩], []⟩), (⟨"p", "b"⟩, ⟨[], []⟩)]
      ⟨"p", "a"⟩ ⟨[⟨"p", "a"⟩], []⟩ =
        some (.ok (⟨[⟨"p", "a"⟩], []⟩, ∅)) ∧
    DepReach [(⟨"p", "a"⟩, ⟨[⟨"p", "b"⟩], []⟩), (⟨"p", "b"⟩, ⟨[], []⟩)]
      ⟨"p", "a"⟩ ⟨"p", "b"⟩ ∧
    (⟨"p", "b"⟩ : Address) ∉ (⟨[⟨"p", "a"⟩], []⟩ : BuildGraph).nodes := by
  refine ⟨by decide, ?_, by decide⟩
  exact Relation.ReflTransGen.single ⟨⟨[⟨"p", "b"⟩], []⟩, by decide, by decide⟩

/-- C4 (as amended).  For every graph whose existing nodes already carry
their declared dependencies and whose existing edges point at existing nodes
(in particular the empty graph, and every graph produced by this traversal),
a successful `inject_spec_closure_into_build_graph` leaves the graph with a
node for the injected address, a node for every address transitively
reachable from it via declared dependency specs, and every recorded
dependency edge pointing at an address present in the graph. -/
theorem c4_inject_closure_amended (pm : ProxyMap) (address : Address)
    (g0 g' : BuildGraph) (c' : Finset Address)
    (hdeps0 : ∀ a ∈ g0.nodes, ∀ node, pm.lookup a = some node →
      ∀ d ∈ node.dependency_addresses, d ∈ g0.nodes)
    (hedges0 : ∀ a ds, (a, ds) ∈ g0.edges → ∀ d ∈ ds, d ∈ g0.nodes)
    (hrun : inject_spec_closure_into_build_graph pm address g0 =
      some (.ok (g', c'))) :
    address ∈ g'.nodes ∧
    (∀ b, DepReach pm address b → b ∈ g'.nodes) ∧
    (∀ a ds, (a, ds) ∈ g'.edges → ∀ d ∈ ds, d ∈ g'.nodes) := by
  obtain ⟨hPost, haddr⟩ := injectAux_post pm _ address g0 ∅ g' c' hrun
  obtain ⟨P1, P2, P3, P4, P5, P6⟩ := hPost
  have hclosed : ∀ x ∈ c', x ∈ g'.nodes := by
    intro x hx
    rcases P5 x hx with hemp | ⟨hn, _⟩
    · exact absurd hemp (Finset.not_mem_empty x)
    · exact hn
  have haddr' : address ∈ g'.nodes := by
    rcases haddr with h | h
    · exact h
    · exact hclosed _ h
  have hstep : ∀ x, x ∈ g'.nodes → ∀ y, DepStep pm x y → y ∈ g'.nodes := by
    intro x hx y hxy
    obtain ⟨node, hnode, hymem⟩ := hxy
    rcases P4 x hx with hg0 | hc'
    · exact P1 y (hdeps0 x hg0 node hnode y hymem)
    · rcases P5 x hc' with hemp | ⟨_, hd⟩
      · exact absurd hemp (Finset.not_mem_empty x)
      · rcases hd node hnode y hymem with h | h
        · exact h
        · exact hclosed y h
  refine ⟨haddr', ?_, ?_⟩
  · intro b hreach
    unfold DepReach at hreach
    induction hreach with
    | refl => exact haddr'
    | tail _ hstep1 ih => exact hstep _ ih _ hstep1
  · intro a ds hads d hd
    rcases P6 a ds hads with h0 | hnew
    · exact P1 d (hedges0 a ds h0 d hd)
    · rcases hnew d hd with h | h
      · exact h
      · exact hclosed d h

/-- Witness for C4's amended statement: injecting `p:a` into the empty graph
injects the reachable dependency `p:b` as well. -/
theorem c4_inject_closure_amended_witness :
    (⟨"p", "b"⟩ : Address) ∈
      (BuildGraph.mk [⟨"p", "a"⟩, ⟨"p", "b"⟩]
        [(⟨"p", "a"⟩, [⟨"p", "b"⟩]), (⟨"p", "b"⟩, [])]).nodes :=
  (c4_inject_closure_amended
    [(⟨"p", "a"⟩, ⟨[⟨"p", "b"⟩], []⟩), (⟨"p", "b"⟩, ⟨[], []⟩)]
    ⟨"p", "a"⟩ ⟨[], []⟩
    ⟨[⟨"p", "a"⟩, ⟨"p", "b"⟩], [(⟨"p", "a"⟩, [⟨"p", "b"⟩]), (⟨"p", "b"⟩, [])]⟩
    (insert ⟨"p", "b"⟩ (insert ⟨"p", "a"⟩ ∅))
    (fun a ha => absurd ha (List.not_mem_nil a))
    (fun _ _ h => absurd h (List.not_mem_nil _))
    (by decide)).2.1 ⟨"p", "b"⟩
    (Relation.ReflTransGen.single ⟨⟨[⟨"p", "b"⟩], []⟩, by decide, by decide⟩)
